import Mathlib

/-!
# Verification of the simple-encoder codec library

Shallow embedding of `src/index.ts` (and its compiled twin `src/index.js`).

Modelling conventions:
* A JavaScript string is a sequence of UTF-16 code units, modelled as
  `List Nat` (each element intended `< 65536`; platform operations that
  coerce, such as `String.fromCharCode`, apply the coercion explicitly).
* An `ArrayBuffer` is a sequence of bytes, modelled as `List Nat` (each
  element intended `< 256`; stores into a `Uint8Array` wrap modulo 256,
  written explicitly at the store sites).
* A `TypedArray` view is its element kind together with the bytes of its
  underlying buffer.
* A function that can `throw` returns `Except CodecError`.
* Platform builtins used by the source (`Number`, `atob`, `btoa`,
  `TextEncoder`, `TextDecoder`) are modelled from the ECMAScript and WHATWG
  encoding standards; each carries a doc comment saying so.
-/

/-- The two error kinds of the library: the dispatchers' unsupported-encoding
throw, and the codecs' invalid-input throws. The payload is the message. -/
inductive CodecError where
  | unsupportedEncoding (encoding : String)
  | invalidInput (message : String)
deriving DecidableEq, Repr

/-- Element kinds of the `TypedArray` union in `src/index.ts` lines 1-8. -/
inductive ElemKind where
  | int8
  | uint8
  | uint8Clamped
  | int16
  | uint16
  | int32
  | uint32
deriving DecidableEq, Repr

/-- A typed-array view: element kind plus the bytes of the underlying
`ArrayBuffer` (views made by this library always cover the whole buffer). -/
structure TypedArray where
  kind : ElemKind
  buf : List Nat
deriving DecidableEq, Repr

/-- A well-formed byte buffer: every element is an 8-bit value. -/
def ValidBytes (b : List Nat) : Prop :=
  ∀ x ∈ b, x < 256

instance : DecidablePred ValidBytes := fun b =>
  inferInstanceAs (Decidable (∀ x ∈ b, x < 256))

instance {ε α : Type} [DecidableEq ε] [DecidableEq α] : DecidableEq (Except ε α) :=
  fun a b =>
    match a, b with
    | .ok x, .ok y =>
      if h : x = y then isTrue (by rw [h]) else isFalse (by simp [h])
    | .error x, .error y =>
      if h : x = y then isTrue (by rw [h]) else isFalse (by simp [h])
    | .ok _, .error _ => isFalse (by simp)
    | .error _, .ok _ => isFalse (by simp)

/-- `typedArrayToUint8Array` (src/index.ts:87-92): identity on a `Uint8Array`,
otherwise `new Uint8Array(typedArray.buffer)`, i.e. a byte view over the same
underlying buffer. -/
def typedArrayToUint8Array (typedArray : TypedArray) : TypedArray :=
  match typedArray.kind with
  | .uint8 => typedArray
  | _ => ⟨.uint8, typedArray.buf⟩

/-- ECMAScript / WHATWG whitespace class: the code units matched by the regex
class `\s` and trimmed by `Number( )`, i.e. WhiteSpace plus LineTerminator. -/
def jsWhitespace (c : Nat) : Bool :=
  c = 9 || c = 10 || c = 11 || c = 12 || c = 13 || c = 32 || c = 160 ||
  c = 0x1680 || (0x2000 ≤ c && c ≤ 0x200A) || c = 0x2028 || c = 0x2029 ||
  c = 0x202F || c = 0x205F || c = 0x3000 || c = 0xFEFF

/-- ASCII whitespace (WHATWG infra), removed by forgiving-base64 (`atob`). -/
def asciiWhitespace (c : Nat) : Bool :=
  c = 9 || c = 10 || c = 12 || c = 13 || c = 32

/-! ## Raw binary / Latin-1 codec -/

/-- `binaryToTypedArray` (src/index.ts:156-168): each code unit becomes one
byte; throws on a code unit above 255. -/
def binaryToTypedArray (binary : List Nat) : Except CodecError (List Nat) :=
  binary.mapM (fun code =>
    if code > 255 then
      .error (.invalidInput "Invalid binary character")
    else
      .ok code)

/-- `latin1ToTypedArray` (src/index.ts:170): alias of `binaryToTypedArray`. -/
def latin1ToTypedArray := binaryToTypedArray

/-- `typedArrayToBinary` (src/index.ts:263-267):
`String.fromCharCode(...bytes)` — each byte becomes one code unit
(`fromCharCode` coerces its argument modulo 2^16, per ECMAScript). -/
def typedArrayToBinary (typedArray : TypedArray) : List Nat :=
  (typedArrayToUint8Array typedArray).buf.map (fun b => b % 65536)

/-- `typedArrayToLatin1` (src/index.ts:269): alias of `typedArrayToBinary`. -/
def typedArrayToLatin1 := typedArrayToBinary

/-! ## Binary-as-bit-string codec ("base2") -/

/-- The binary-literal body parser inside `Number("0b" + digits)`: digits must
all be `'0'`/`'1'`; accumulates the value most-significant first. -/
def parseBinDigits (acc : Nat) : List Nat → Option Nat
  | [] => some acc
  | c :: rest =>
    if c = 48 then parseBinDigits (2 * acc) rest
    else if c = 49 then parseBinDigits (2 * acc + 1) rest
    else none

/-- Modelled from ECMAScript `Number(string)` applied to `"0b" + group`:
trailing whitespace of the group is trimmed (leading is impossible after
`"0b"`), an empty digit list yields `NaN` (`none`), otherwise the digits are
parsed as a binary literal. -/
def parseBinGroup (group : List Nat) : Option Nat :=
  let trimmed := (group.reverse.dropWhile (fun c => jsWhitespace c)).reverse
  match trimmed with
  | [] => none
  | _ :: _ => parseBinDigits 0 trimmed

/-- `binaryStringToTypedArray` (src/index.ts:172-184): the input is consumed
in groups of eight code units (`substring(i*8, i*8+8)`); each group goes
through `Number("0b" + group)`, throwing on `NaN`; the result is stored into
a `Uint8Array` slot (wrap modulo 256). A final group shorter than eight is
the whole remaining suffix. -/
def binaryStringToTypedArray : List Nat → Except CodecError (List Nat)
  | [] => .ok []
  | c1 :: c2 :: c3 :: c4 :: c5 :: c6 :: c7 :: c8 :: rest =>
    match parseBinGroup [c1, c2, c3, c4, c5, c6, c7, c8] with
    | none => .error (.invalidInput "Binary string must only contain 0 or 1")
    | some base10 =>
      (fun tail => base10 % 256 :: tail) <$> binaryStringToTypedArray rest
  | l =>
    match parseBinGroup l with
    | none => .error (.invalidInput "Binary string must only contain 0 or 1")
    | some base10 => .ok [base10 % 256]

/-- The value of a `'0'`/`'1'` digit string read most-significant first. -/
def binValue (g : List Nat) : Nat :=
  g.foldl (fun acc c => 2 * acc + (c - 48)) 0

/-- Digit values of `n` in base `base`, most significant first, no leading
zeros; `fuel` bounds the recursion depth (`fuel = n` always suffices). -/
def digitsAux (base : Nat) : Nat → Nat → List Nat
  | 0, n => [n]
  | fuel + 1, n =>
    if n < base then [n]
    else digitsAux base fuel (n / base) ++ [n % base]

/-- One byte of `typedArrayToBinaryString`: `byte.toString(2)` digit list
(most significant first, no leading zeros), as `'0'`/`'1'` code units. -/
def natToBinDigits (n : Nat) : List Nat :=
  (digitsAux 2 n n).map (fun d => 48 + d)

/-- `typedArrayToBinaryString` (src/index.ts:271-281): each byte rendered via
`toString(2).padStart(8, "0")` and joined. -/
def typedArrayToBinaryString (typedArray : TypedArray) : List Nat :=
  ((typedArrayToUint8Array typedArray).buf.map
    (fun byte =>
      let digits := natToBinDigits byte
      List.replicate (8 - digits.length) 48 ++ digits)).flatten

/-! ## Hexadecimal codec -/

/-- `HEX_MAP` (src/index.ts:58-81): the 22-entry digit table, as a lookup on
code units: `'0'`-`'9'`, `'a'`-`'f'`, `'A'`-`'F'`. -/
def hexVal (c : Nat) : Option Nat :=
  if 48 ≤ c ∧ c ≤ 57 then some (c - 48)
  else if 97 ≤ c ∧ c ≤ 102 then some (c - 87)
  else if 65 ≤ c ∧ c ≤ 70 then some (c - 55)
  else none

/-- `hexToTypedArray` (src/index.ts:186-206): consume two characters per
output byte; on the final lone character (odd length, `charAt(i*2+1)` falsy)
the pair is `["0", charAt(i*2)]`; throws if a consumed character is not in
`HEX_MAP`; each byte is `(a << 4) | b` stored into a `Uint8Array` slot. -/
def hexToTypedArray : List Nat → Except CodecError (List Nat)
  | [] => .ok []
  | [c] =>
    match hexVal 48, hexVal c with
    | some a, some b => .ok [(a * 16 + b) % 256]
    | _, _ => .error (.invalidInput "Hex must only contain digits and letters a to f")
  | c1 :: c2 :: rest =>
    match hexVal c1, hexVal c2 with
    | some a, some b =>
      (fun tail => (a * 16 + b) % 256 :: tail) <$> hexToTypedArray rest
    | _, _ => .error (.invalidInput "Hex must only contain digits and letters a to f")

/-- One digit of `byte.toString(16)`: lowercase hex digit code unit. -/
def natToHexDigit (d : Nat) : Nat :=
  if d < 10 then 48 + d else 87 + d

/-- Digit list of `n.toString(16)`, most significant first, no leading zeros. -/
def natToHexDigits (n : Nat) : List Nat :=
  (digitsAux 16 n n).map natToHexDigit

/-- `typedArrayToHex` (src/index.ts:298-308): each byte rendered via
`toString(16).padStart(2, "0")` and joined. -/
def typedArrayToHex (typedArray : TypedArray) : List Nat :=
  ((typedArrayToUint8Array typedArray).buf.map
    (fun byte =>
      let digits := natToHexDigits byte
      List.replicate (2 - digits.length) 48 ++ digits)).flatten

/-! ## Base64 / Base64-URL codec -/

/-- Character of the standard Base64 alphabet at index `n < 64`. -/
def sixToChar (n : Nat) : Nat :=
  if n < 26 then 65 + n
  else if n < 52 then 97 + (n - 26)
  else if n < 62 then 48 + (n - 52)
  else if n = 62 then 43
  else 47

/-- Index of a code unit in the standard Base64 alphabet, `none` if absent. -/
def charToSix (c : Nat) : Option Nat :=
  if 65 ≤ c ∧ c ≤ 90 then some (c - 65)
  else if 97 ≤ c ∧ c ≤ 122 then some (c - 71)
  else if 48 ≤ c ∧ c ≤ 57 then some (c + 4)
  else if c = 43 then some 62
  else if c = 47 then some 63
  else none

/-- Core of `btoa`: Base64 of a byte sequence, three bytes per four output
characters, `'='` (61) padding on a short final group. -/
def btoaAux : List Nat → List Nat
  | b0 :: b1 :: b2 :: rest =>
    sixToChar (b0 / 4) :: sixToChar ((b0 % 4) * 16 + b1 / 16) ::
    sixToChar ((b1 % 16) * 4 + b2 / 64) :: sixToChar (b2 % 64) :: btoaAux rest
  | [b0, b1] =>
    [sixToChar (b0 / 4), sixToChar ((b0 % 4) * 16 + b1 / 16),
     sixToChar ((b1 % 16) * 4), 61]
  | [b0] =>
    [sixToChar (b0 / 4), sixToChar ((b0 % 4) * 16), 61, 61]
  | [] => []

/-- Modelled from the HTML standard's `btoa`: throws `InvalidCharacterError`
if a code unit of the argument exceeds 255, otherwise Base64-encodes the code
units as bytes. -/
def btoa (s : List Nat) : Except CodecError (List Nat) :=
  if s.all (fun c => c ≤ 255) then .ok (btoaAux s)
  else .error (.invalidInput "btoa: invalid character")

/-- Core of `atob` (WHATWG forgiving-base64): four characters per three
bytes; a final group of three characters yields two bytes and a final group
of two yields one (leftover bits discarded); any character outside the
standard alphabet (including a leftover `'='`) is an error. -/
def atobDecode : List Nat → Option (List Nat)
  | c1 :: c2 :: c3 :: c4 :: rest =>
    match charToSix c1, charToSix c2, charToSix c3, charToSix c4, atobDecode rest with
    | some a, some b, some c, some d, some tail =>
      some ((a * 4 + b / 16) :: ((b % 16) * 16 + c / 4) :: ((c % 4) * 64 + d) :: tail)
    | _, _, _, _, _ => none
  | [c1, c2, c3] =>
    match charToSix c1, charToSix c2, charToSix c3 with
    | some a, some b, some c => some [a * 4 + b / 16, (b % 16) * 16 + c / 4]
    | _, _, _ => none
  | [c1, c2] =>
    match charToSix c1, charToSix c2 with
    | some a, some b => some [a * 4 + b / 16]
    | _, _ => none
  | [_] => none
  | [] => some []

/-- Forgiving-base64's padding strip: if the input ends with one or two
`'='` (61), remove them. -/
def stripPad (t : List Nat) : List Nat :=
  match t.reverse with
  | 61 :: 61 :: r => r.reverse
  | 61 :: r => r.reverse
  | _ => t

/-- Modelled from the HTML standard's `atob` (forgiving-base64 decode):
remove ASCII whitespace; if the length is a multiple of four strip up to two
trailing `'='`; fail if the remaining length is `1 mod 4`; decode, failing on
any character outside the Base64 alphabet. -/
def atob (s : List Nat) : Except CodecError (List Nat) :=
  let t0 := s.filter (fun c => !(asciiWhitespace c))
  let t := if t0.length % 4 = 0 then stripPad t0 else t0
  if t.length % 4 = 1 then .error (.invalidInput "atob: invalid base64")
  else
    match atobDecode t with
    | some bytes => .ok bytes
    | none => .error (.invalidInput "atob: invalid base64")

/-- `asciiToTypedArray` (src/index.ts:208-214): `atob`, then each code unit
of the result (a byte) into a `Uint8Array`. -/
def asciiToTypedArray (ascii : List Nat) : Except CodecError (List Nat) :=
  atob ascii

/-- `base64ToTypedArray` (src/index.ts:216): alias of `asciiToTypedArray`. -/
def base64ToTypedArray := asciiToTypedArray

/-- `asciiUrlToTypedArray` (src/index.ts:218-225): substitute `'-'`→`'+'`,
then `'_'`→`'/'`, then remove every `\s` match, then standard decode. -/
def asciiUrlToTypedArray (asciiUrl : List Nat) : Except CodecError (List Nat) :=
  asciiToTypedArray
    ((((asciiUrl.map (fun c => if c = 45 then 43 else c)).map
        (fun c => if c = 95 then 47 else c)).filter
        (fun c => !(jsWhitespace c))))

/-- `base64UrlToTypedArray` (src/index.ts:227): alias of `asciiUrlToTypedArray`. -/
def base64UrlToTypedArray := asciiUrlToTypedArray

/-- `typedArrayToAscii` (src/index.ts:283-285): `btoa(typedArrayToBinary(t))`. -/
def typedArrayToAscii (typedArray : TypedArray) : Except CodecError (List Nat) :=
  btoa (typedArrayToBinary typedArray)

/-- `typedArrayToBase64` (src/index.ts:287): alias of `typedArrayToAscii`. -/
def typedArrayToBase64 := typedArrayToAscii

/-- The character substitution of the URL-safe encoder, `'+'`→`'-'` then
`'/'`→`'_'` (applied after the `'='` strip). -/
def swapEnc (c : Nat) : Nat :=
  if c = 43 then 45 else if c = 47 then 95 else c

/-- `typedArrayToAsciiUrl` (src/index.ts:289-294): standard encode, strip all
`'='`, substitute `'+'`→`'-'` and `'/'`→`'_'`. -/
def typedArrayToAsciiUrl (typedArray : TypedArray) : Except CodecError (List Nat) :=
  (typedArrayToAscii typedArray).map
    (fun s => (s.filter (fun c => c ≠ 61)).map swapEnc)

/-- `typedArrayToBase64Url` (src/index.ts:296): alias of `typedArrayToAsciiUrl`. -/
def typedArrayToBase64Url := typedArrayToAsciiUrl

/-! ## Windows-1252 codec -/

/-- `WINDOWS_1252_MAP` (src/index.ts:28-56): the 27 high-range characters,
keyed by code unit, valued in 128-159. -/
def windows1252CharToByte (c : Nat) : Option Nat :=
  if c = 0x20AC then some 128
  else if c = 0x201A then some 130
  else if c = 0x0192 then some 131
  else if c = 0x201E then some 132
  else if c = 0x2026 then some 133
  else if c = 0x2020 then some 134
  else if c = 0x2021 then some 135
  else if c = 0x02C6 then some 136
  else if c = 0x2030 then some 137
  else if c = 0x0160 then some 138
  else if c = 0x2039 then some 139
  else if c = 0x0152 then some 140
  else if c = 0x017D then some 142
  else if c = 0x2018 then some 145
  else if c = 0x2019 then some 146
  else if c = 0x201C then some 147
  else if c = 0x201D then some 148
  else if c = 0x2022 then some 149
  else if c = 0x2013 then some 150
  else if c = 0x2014 then some 151
  else if c = 0x02DC then some 152
  else if c = 0x2122 then some 153
  else if c = 0x0161 then some 154
  else if c = 0x203A then some 155
  else if c = 0x0153 then some 156
  else if c = 0x017E then some 158
  else if c = 0x0178 then some 159
  else none

/-- `windows1252ToTypedArray` (src/index.ts:229-247): a mapped character uses
its table byte; otherwise the raw code unit, throwing above 255. -/
def windows1252ToTypedArray (string : List Nat) : Except CodecError (List Nat) :=
  string.mapM (fun c =>
    match windows1252CharToByte c with
    | some byte => .ok byte
    | none =>
      if c > 255 then .error (.invalidInput "Invalid windows-1252 character")
      else .ok c)

/-- Modelled from the WHATWG encoding standard's `index-windows-1252`:
the code point for pointer `p` (byte `0x80 + p`), `p < 128`. The index is
total: the five pointers without a graphic character (1, 13, 15, 16, 29, for
bytes 0x81, 0x8D, 0x8F, 0x90, 0x9D) map to the C1 control of the same value. -/
def windows1252Index (p : Nat) : Option Nat :=
  if p = 0 then some 0x20AC
  else if p = 1 then some 0x81
  else if p = 2 then some 0x201A
  else if p = 3 then some 0x0192
  else if p = 4 then some 0x201E
  else if p = 5 then some 0x2026
  else if p = 6 then some 0x2020
  else if p = 7 then some 0x2021
  else if p = 8 then some 0x02C6
  else if p = 9 then some 0x2030
  else if p = 10 then some 0x0160
  else if p = 11 then some 0x2039
  else if p = 12 then some 0x0152
  else if p = 13 then some 0x8D
  else if p = 14 then some 0x017D
  else if p = 15 then some 0x8F
  else if p = 16 then some 0x90
  else if p = 17 then some 0x2018
  else if p = 18 then some 0x2019
  else if p = 19 then some 0x201C
  else if p = 20 then some 0x201D
  else if p = 21 then some 0x2022
  else if p = 22 then some 0x2013
  else if p = 23 then some 0x2014
  else if p = 24 then some 0x02DC
  else if p = 25 then some 0x2122
  else if p = 26 then some 0x0161
  else if p = 27 then some 0x203A
  else if p = 28 then some 0x0153
  else if p = 29 then some 0x9D
  else if p = 30 then some 0x017E
  else if p = 31 then some 0x0178
  else if p < 128 then some (p + 128)
  else none

/-- `typedArrayToWindows1252` (src/index.ts:310-314): modelled from the
WHATWG single-byte decoder with `fatal: true` — a byte below 0x80 is its own
code point, otherwise the `index-windows-1252` entry; a missing entry would
be a fatal error. -/
def typedArrayToWindows1252 (typedArray : TypedArray) : Except CodecError (List Nat) :=
  (typedArrayToUint8Array typedArray).buf.mapM (fun b =>
    if b < 128 then .ok b
    else
      match windows1252Index (b - 128) with
      | some cp => .ok cp
      | none => .error (.invalidInput "windows-1252: undefined byte"))

/-! ## UTF-16 codec -/

/-- The little-endian byte pair of one 16-bit slot of a `Uint16Array`
(stores wrap modulo 2^16, per ECMAScript ToUint16). -/
def utf16Bytes : List Nat → List Nat
  | [] => []
  | c :: rest => (c % 65536) % 256 :: (c % 65536) / 256 :: utf16Bytes rest

/-- `utf16ToTypedArray` (src/index.ts:249-257): a `Uint16Array` of the
string's code units, reinterpreted as its little-endian byte buffer. -/
def utf16ToTypedArray (string : List Nat) : TypedArray :=
  ⟨.uint8, utf16Bytes string⟩

/-- Little-endian pairing of bytes into 16-bit units; `none` on a trailing
lone byte (fatal error of the utf-16 decoder). -/
def utf16leUnits : List Nat → Option (List Nat)
  | [] => some []
  | [_] => none
  | b0 :: b1 :: rest =>
    (fun tail => ((b1 % 256) * 256 + b0 % 256) :: tail) <$> utf16leUnits rest

/-- Are the code units well-formed UTF-16 (every surrogate correctly
paired)? -/
def validUtf16 : List Nat → Bool
  | [] => true
  | [c] =>
    if 0xD800 ≤ c ∧ c ≤ 0xDFFF then false else true
  | c :: c2 :: rest =>
    if 0xD800 ≤ c ∧ c ≤ 0xDBFF then
      if 0xDC00 ≤ c2 ∧ c2 ≤ 0xDFFF then validUtf16 rest else false
    else if 0xDC00 ≤ c ∧ c ≤ 0xDFFF then false
    else validUtf16 (c2 :: rest)

/-- `typedArrayToUtf16` (src/index.ts:316-320): modelled from the WHATWG
`TextDecoder("utf-16", { fatal: true })` — utf-16le, a leading BOM
`FF FE` is skipped, a trailing lone byte or an unpaired surrogate is fatal. -/
def typedArrayToUtf16 (typedArray : TypedArray) : Except CodecError (List Nat) :=
  let b := (typedArrayToUint8Array typedArray).buf
  let b := match b with
    | 255 :: 254 :: rest => rest
    | _ => b
  match utf16leUnits b with
  | none => .error (.invalidInput "utf-16: truncated code unit")
  | some units =>
    if validUtf16 units then .ok units
    else .error (.invalidInput "utf-16: unpaired surrogate")

/-! ## UTF-8 codec -/

/-- Lower bound of the second byte for a three-byte lead (WHATWG utf-8
decoder): `0xE0` requires `0xA0`. -/
def utf8Lo3 (b : Nat) : Nat :=
  if b = 0xE0 then 0xA0 else 0x80

/-- Upper bound of the second byte for a three-byte lead: `0xED` caps at
`0x9F` (excluding surrogates). -/
def utf8Hi3 (b : Nat) : Nat :=
  if b = 0xED then 0x9F else 0xBF

/-- Lower bound of the second byte for a four-byte lead: `0xF0` requires
`0x90`. -/
def utf8Lo4 (b : Nat) : Nat :=
  if b = 0xF0 then 0x90 else 0x80

/-- Upper bound of the second byte for a four-byte lead: `0xF4` caps at
`0x8F` (excluding code points above U+10FFFF). -/
def utf8Hi4 (b : Nat) : Nat :=
  if b = 0xF4 then 0x8F else 0xBF

/-- Modelled from the WHATWG utf-8 decoder in fatal mode: bytes to code
points, rejecting overlongs, surrogates, out-of-range values and truncated
sequences. -/
def utf8DecodeAux : List Nat → Option (List Nat)
  | [] => some []
  | b :: rest =>
    if b ≤ 0x7F then (fun tail => b :: tail) <$> utf8DecodeAux rest
    else if 0xC2 ≤ b ∧ b ≤ 0xDF then
      match rest with
      | b1 :: r =>
        if 0x80 ≤ b1 ∧ b1 ≤ 0xBF then
          (fun tail => ((b - 0xC0) * 64 + (b1 - 0x80)) :: tail) <$> utf8DecodeAux r
        else none
      | [] => none
    else if 0xE0 ≤ b ∧ b ≤ 0xEF then
      match rest with
      | b1 :: b2 :: r =>
        if (utf8Lo3 b ≤ b1 ∧ b1 ≤ utf8Hi3 b) ∧ (0x80 ≤ b2 ∧ b2 ≤ 0xBF) then
          (fun tail => ((b - 0xE0) * 4096 + (b1 - 0x80) * 64 + (b2 - 0x80)) :: tail) <$>
            utf8DecodeAux r
        else none
      | _ => none
    else if 0xF0 ≤ b ∧ b ≤ 0xF4 then
      match rest with
      | b1 :: b2 :: b3 :: r =>
        if (utf8Lo4 b ≤ b1 ∧ b1 ≤ utf8Hi4 b) ∧ (0x80 ≤ b2 ∧ b2 ≤ 0xBF) ∧
            (0x80 ≤ b3 ∧ b3 ≤ 0xBF) then
          (fun tail =>
            ((b - 0xF0) * 262144 + (b1 - 0x80) * 4096 + (b2 - 0x80) * 64 + (b3 - 0x80)) :: tail) <$>
            utf8DecodeAux r
        else none
      | _ => none
    else none

/-- A code point as UTF-16 code units: itself if below 0x10000, otherwise a
surrogate pair. -/
def cpToUtf16 (cp : Nat) : List Nat :=
  if cp < 0x10000 then [cp]
  else [0xD800 + (cp - 0x10000) / 1024, 0xDC00 + (cp - 0x10000) % 1024]

/-- `typedArrayToUtf8` (src/index.ts:322-326): modelled from
`TextDecoder("utf-8", { fatal: true })` — strict utf-8 decode of the byte
view, the resulting code points delivered as UTF-16 code units. -/
def typedArrayToUtf8 (typedArray : TypedArray) : Except CodecError (List Nat) :=
  match utf8DecodeAux (typedArrayToUint8Array typedArray).buf with
  | none => .error (.invalidInput "utf-8: invalid byte sequence")
  | some cps => .ok ((cps.map cpToUtf16).flatten)

/-- Code units to code points for the encoder: a well-formed surrogate pair
combines, a lone surrogate becomes U+FFFD (per WHATWG
convert-a-string-into-a-scalar-value-string, used by `TextEncoder`). -/
def utf16ToCodePoints : List Nat → List Nat
  | [] => []
  | [c] =>
    if 0xD800 ≤ c ∧ c ≤ 0xDFFF then [0xFFFD] else [c]
  | c :: c2 :: rest =>
    if 0xD800 ≤ c ∧ c ≤ 0xDBFF then
      if 0xDC00 ≤ c2 ∧ c2 ≤ 0xDFFF then
        (0x10000 + (c - 0xD800) * 1024 + (c2 - 0xDC00)) :: utf16ToCodePoints rest
      else 0xFFFD :: utf16ToCodePoints (c2 :: rest)
    else if 0xDC00 ≤ c ∧ c ≤ 0xDFFF then 0xFFFD :: utf16ToCodePoints (c2 :: rest)
    else c :: utf16ToCodePoints (c2 :: rest)

/-- The UTF-8 bytes of one code point. -/
def cpToUtf8 (cp : Nat) : List Nat :=
  if cp < 0x80 then [cp]
  else if cp < 0x800 then [0xC0 + cp / 64, 0x80 + cp % 64]
  else if cp < 0x10000 then [0xE0 + cp / 4096, 0x80 + (cp / 64) % 64, 0x80 + cp % 64]
  else [0xF0 + cp / 262144, 0x80 + (cp / 4096) % 64, 0x80 + (cp / 64) % 64, 0x80 + cp % 64]

/-- `utf8ToTypedArray` (src/index.ts:259-261) and the `"utf8"` decode branch
of the dispatcher: modelled from `new TextEncoder().encode(string)`. -/
def utf8ToTypedArray (string : List Nat) : List Nat :=
  ((utf16ToCodePoints string).map cpToUtf8).flatten

/-! ## Dispatchers and the generic converter -/

/-- Wrap decoded bytes as the `Uint8Array` the decoders return. -/
def mkUint8 (b : List Nat) : TypedArray :=
  ⟨.uint8, b⟩

/-- `stringToTypedArray` (src/index.ts:94-123): route by encoding label over
the sixteen labels, with an explicit default throw. -/
def stringToTypedArray (str : List Nat) (encoding : String) :
    Except CodecError TypedArray :=
  if encoding = "base2" ∨ encoding = "binaryString" then
    (binaryStringToTypedArray str).map mkUint8
  else if encoding = "binary" ∨ encoding = "latin1" then
    (binaryToTypedArray str).map mkUint8
  else if encoding = "base16" ∨ encoding = "hex" then
    (hexToTypedArray str).map mkUint8
  else if encoding = "base64" ∨ encoding = "ascii" then
    (asciiToTypedArray str).map mkUint8
  else if encoding = "base64Url" ∨ encoding = "asciiUrl" then
    (asciiUrlToTypedArray str).map mkUint8
  else if encoding = "windows1252" ∨ encoding = "windows-1252" then
    (windows1252ToTypedArray str).map mkUint8
  else if encoding = "utf16" ∨ encoding = "utf-16" then
    .ok (utf16ToTypedArray str)
  else if encoding = "utf8" ∨ encoding = "utf-8" then
    .ok (mkUint8 (utf8ToTypedArray str))
  else .error (.unsupportedEncoding encoding)

/-- `typedArrayToString` (src/index.ts:125-154): route by encoding label over
the sixteen labels, with an explicit default throw. -/
def typedArrayToString (typedArray : TypedArray) (encoding : String) :
    Except CodecError (List Nat) :=
  if encoding = "base2" ∨ encoding = "binaryString" then
    .ok (typedArrayToBinaryString typedArray)
  else if encoding = "binary" ∨ encoding = "latin1" then
    .ok (typedArrayToBinary typedArray)
  else if encoding = "base16" ∨ encoding = "hex" then
    .ok (typedArrayToHex typedArray)
  else if encoding = "base64" ∨ encoding = "ascii" then
    typedArrayToAscii typedArray
  else if encoding = "base64Url" ∨ encoding = "asciiUrl" then
    typedArrayToAsciiUrl typedArray
  else if encoding = "windows1252" ∨ encoding = "windows-1252" then
    typedArrayToWindows1252 typedArray
  else if encoding = "utf16" ∨ encoding = "utf-16" then
    typedArrayToUtf16 typedArray
  else if encoding = "utf8" ∨ encoding = "utf-8" then
    typedArrayToUtf8 typedArray
  else .error (.unsupportedEncoding encoding)

/-- The sixteen encoding labels accepted by both dispatchers. -/
def encodingLabels : List String :=
  ["base2", "binaryString", "binary", "latin1", "base16", "hex",
   "base64", "ascii", "base64Url", "asciiUrl", "windows1252", "windows-1252",
   "utf16", "utf-16", "utf8", "utf-8"]

/-- The argument of `convertEncoding`: a string or a typed array (the
`isString` runtime inspection becomes this sum type). -/
inductive JSValue where
  | str (s : List Nat)
  | arr (t : TypedArray)
deriving DecidableEq, Repr

/-- `convertEncoding` (src/index.ts:328-349): on a string, decode from the
source encoding then encode to the output encoding; on a typed array, encode
to text under the source encoding then decode that text under the output
encoding. -/
def convertEncoding (value : JSValue) (encodingSource encodingOutput : String) :
    Except CodecError JSValue :=
  match value with
  | .str s =>
    (stringToTypedArray s encodingSource).bind
      (fun t => (typedArrayToString t encodingOutput).map .str)
  | .arr t =>
    (typedArrayToString t encodingSource).bind
      (fun s => (stringToTypedArray s encodingOutput).map .arr)

/-! ## Helper lemmas -/

/-- The byte view has the same underlying buffer as the input view. -/
theorem buf_typedArrayToUint8Array (t : TypedArray) :
    (typedArrayToUint8Array t).buf = t.buf := by
  cases t with
  | mk kind buf => cases kind <;> rfl

/-- `mapM` into `Except` succeeds pointwise. -/
theorem mapM_ok_of_forall {α β : Type} (f : α → Except CodecError β) (g : α → β) :
    ∀ (l : List α), (∀ a ∈ l, f a = .ok (g a)) → l.mapM f = .ok (l.map g)
  | [], _ => rfl
  | x :: xs, h => by
    rw [List.mapM_cons, h x (by simp),
      mapM_ok_of_forall f g xs (fun a ha => h a (by simp [ha]))]
    rfl

/-- A map that fixes every element of the list is the identity. -/
theorem map_eq_self_of {α : Type} (f : α → α) :
    ∀ (l : List α), (∀ a ∈ l, f a = a) → l.map f = l
  | [], _ => rfl
  | x :: xs, h => by
    simp [h x (by simp), map_eq_self_of f xs (fun a ha => h a (by simp [ha]))]

/-- `dropWhile` is the identity when the predicate fails on every element. -/
theorem dropWhile_eq_self_of (p : Nat → Bool) :
    ∀ (l : List Nat), (∀ x ∈ l, p x = false) → l.dropWhile p = l
  | [], _ => rfl
  | x :: xs, h => by
    simp [List.dropWhile_cons, h x (by simp)]

/-! ## C8: buffer normalization -/

/-- C8: buffer normalization is idempotent and is the identity (the very same
view, not a copy) on a view that is already a `Uint8Array`; being a total
function of the view, it never fails. -/
theorem typedArrayToUint8Array_idempotent_and_id :
    (∀ t : TypedArray,
      typedArrayToUint8Array (typedArrayToUint8Array t) = typedArrayToUint8Array t)
    ∧ (∀ t : TypedArray, t.kind = ElemKind.uint8 → typedArrayToUint8Array t = t) := by
  constructor
  · intro t
    cases t with
    | mk kind buf => cases kind <;> rfl
  · intro t h
    cases t with
    | mk kind buf =>
      simp only at h
      rw [h]
      rfl

/-- Witness for C8 at a concrete `Uint8Array` view. -/
theorem typedArrayToUint8Array_idempotent_and_id_witness :
    typedArrayToUint8Array ⟨.uint8, [1, 2, 3]⟩ = ⟨.uint8, [1, 2, 3]⟩ :=
  typedArrayToUint8Array_idempotent_and_id.2 ⟨.uint8, [1, 2, 3]⟩ rfl

/-! ## C9: the UTF-16 decode direction never fails -/

/-- `utf16Bytes` produces two bytes per code unit. -/
theorem utf16Bytes_length : ∀ (s : List Nat), (utf16Bytes s).length = 2 * s.length
  | [] => rfl
  | c :: rest => by
    simp [utf16Bytes, utf16Bytes_length rest]
    omega

/-- C9: `utf16ToTypedArray` is a total function (the model returns a plain
`TypedArray`, mirroring the throw-free source loop): for every input string,
unpaired surrogates included, it returns a byte view of length exactly twice
the code-unit count, packing each 16-bit code unit as two little-endian
bytes. -/
theorem utf16ToTypedArray_total (s : List Nat) (h : ∀ c ∈ s, c < 65536) :
    (utf16ToTypedArray s).kind = ElemKind.uint8 ∧
    (utf16ToTypedArray s).buf.length = 2 * s.length ∧
    (utf16ToTypedArray s).buf = (s.map (fun c => [c % 256, c / 256])).flatten ∧
    stringToTypedArray s "utf16" = .ok (utf16ToTypedArray s) := by
  refine ⟨rfl, utf16Bytes_length s, ?_, rfl⟩
  show utf16Bytes s = (s.map (fun c => [c % 256, c / 256])).flatten
  induction s with
  | nil => rfl
  | cons c rest ih =>
    have hc : c % 65536 = c := Nat.mod_eq_of_lt (h c (by simp))
    simp [utf16Bytes, hc, ih (fun x hx => h x (by simp [hx]))]

/-- Witness for C9 at a string holding an unpaired lead surrogate. -/
theorem utf16ToTypedArray_total_witness :
    (utf16ToTypedArray [0xD800, 65]).kind = ElemKind.uint8 ∧
    (utf16ToTypedArray [0xD800, 65]).buf.length = 2 * 2 ∧
    (utf16ToTypedArray [0xD800, 65]).buf =
      (([0xD800, 65].map (fun c => [c % 256, c / 256]))).flatten ∧
    stringToTypedArray [0xD800, 65] "utf16" = .ok (utf16ToTypedArray [0xD800, 65]) :=
  utf16ToTypedArray_total [0xD800, 65] (by decide)

/-! ## C10: Latin-1 text round-trip -/

/-- C10: on a string whose code units all fit in a byte, the Latin-1 decode
succeeds with one byte per character, and re-encoding those bytes restores
the string. -/
theorem latin1_text_roundtrip (s : List Nat) (h : ∀ c ∈ s, c ≤ 255) :
    ∃ b, binaryToTypedArray s = .ok b ∧ b.length = s.length ∧
      typedArrayToBinary ⟨.uint8, b⟩ = s := by
  refine ⟨s, ?_, rfl, ?_⟩
  · have := mapM_ok_of_forall
      (fun code => if code > 255 then
          Except.error (.invalidInput "Invalid binary character")
        else Except.ok code)
      id s (fun a ha => by simp [Nat.not_lt.mpr (h a ha)])
    simpa [binaryToTypedArray] using this
  · show s.map (fun b => b % 65536) = s
    exact map_eq_self_of _ s (fun a ha => Nat.mod_eq_of_lt (by have := h a ha; omega))

/-- Witness for C10 at a concrete Latin-1 string. -/
theorem latin1_text_roundtrip_witness :
    ∃ b, binaryToTypedArray [72, 255, 0] = .ok b ∧ b.length = ([72, 255, 0] : List Nat).length ∧
      typedArrayToBinary ⟨.uint8, b⟩ = [72, 255, 0] :=
  latin1_text_roundtrip [72, 255, 0] (by decide)

/-! ## C1: the generic converter's binary branch -/

/-- C1: on a typed-array input, `convertEncoding` first encodes the buffer to
text under the source encoding via `typedArrayToString`, then decodes that
text back to bytes under the destination encoding via `stringToTypedArray`,
returning a byte buffer. Concretely, bytes `[0x31, 0x32]` converted from
"utf8" to "hex" become the byte `[0x12]` — the hex *decode* of the text
`"12"` — and not the hex *encoding* of the bytes, which would be the text
`"3132"`. -/
theorem convertEncoding_binary_branch :
    (∀ (t : TypedArray) (src dst : String),
      convertEncoding (.arr t) src dst =
        (typedArrayToString t src).bind
          (fun s => (stringToTypedArray s dst).map JSValue.arr))
    ∧ convertEncoding (.arr ⟨.uint8, [49, 50]⟩) "utf8" "hex" = .ok (.arr ⟨.uint8, [18]⟩)
    ∧ typedArrayToString ⟨.uint8, [49, 50]⟩ "hex" = .ok [51, 49, 51, 50] :=
  ⟨fun _ _ _ => rfl, by decide, by decide⟩

/-! ## C7: unknown encodings are rejected by both dispatchers -/

/-- C7: for any encoding label outside the sixteen supported labels, both
dispatchers fail with the unsupported-encoding error carrying that label,
for every input, via the explicit default branch. -/
theorem dispatchers_unsupported (enc : String) (s : List Nat) (t : TypedArray)
    (h : enc ∉ encodingLabels) :
    stringToTypedArray s enc = .error (.unsupportedEncoding enc) ∧
    typedArrayToString t enc = .error (.unsupportedEncoding enc) := by
  simp only [encodingLabels, List.mem_cons, List.not_mem_nil, or_false, not_or] at h
  obtain ⟨h1, h2, h3, h4, h5, h6, h7, h8, h9, h10, h11, h12, h13, h14, h15, h16⟩ := h
  constructor <;>
    simp [stringToTypedArray, typedArrayToString,
      h1, h2, h3, h4, h5, h6, h7, h8, h9, h10, h11, h12, h13, h14, h15, h16]

/-- Witness for C7 at the label "nonsense". -/
theorem dispatchers_unsupported_witness :
    stringToTypedArray [0] "nonsense" = .error (.unsupportedEncoding "nonsense") ∧
    typedArrayToString ⟨.uint8, [0]⟩ "nonsense" = .error (.unsupportedEncoding "nonsense") :=
  dispatchers_unsupported "nonsense" [0] ⟨.uint8, [0]⟩ (by decide)

/-! ## C2: lenient odd-length hex decode -/

/-- A hex digit value is a nibble. -/
theorem hexVal_lt (c v : Nat) (h : hexVal c = some v) : v < 16 := by
  unfold hexVal at h
  by_cases h1 : 48 ≤ c ∧ c ≤ 57
  · simp [h1] at h; omega
  by_cases h2 : 97 ≤ c ∧ c ≤ 102
  · simp [h1, h2] at h; omega
  by_cases h3 : 65 ≤ c ∧ c ≤ 70
  · simp [h1, h2, h3] at h; omega
  · simp [h1, h2, h3] at h

/-- `getLastD` of a non-empty list ignores the default. -/
theorem getLastD_irrel : ∀ (l : List Nat), l ≠ [] → ∀ x y, l.getLastD x = l.getLastD y
  | [], h, _, _ => absurd rfl h
  | _ :: l, _, x, y => by rw [List.getLastD_cons, List.getLastD_cons]

/-- C2: on an odd-length string of hex digits the decode succeeds with
`ceil(length / 2)` bytes, and the last byte is exactly the value of the final
lone digit — a nibble, i.e. decoded with an implicit leading zero nibble, so
the lone digit is neither dropped nor an error; in particular
`hexToTypedArray "d"` is the single byte `0x0d`. -/
theorem hexToTypedArray_odd_lenient :
    ∀ (hex : List Nat), hex.length % 2 = 1 → (∀ c ∈ hex, (hexVal c).isSome) →
    (∃ bs v, hexToTypedArray hex = .ok bs ∧
      bs.length = (hex.length + 1) / 2 ∧
      hexVal (hex.getLastD 0) = some v ∧ v < 16 ∧ bs.getLast? = some v) ∧
    hexToTypedArray [100] = .ok [13]
  | [], h1, _ => by simp at h1
  | [c], _, h2 => by
    refine ⟨?_, by decide⟩
    obtain ⟨v, hv⟩ := Option.isSome_iff_exists.mp (h2 c (by simp))
    have h48 : hexVal 48 = some 0 := by decide
    have hmod : (0 * 16 + v) % 256 = v := by
      have := hexVal_lt c v hv; omega
    refine ⟨[v], v, ?_, by simp, hv, hexVal_lt c v hv, rfl⟩
    simp only [hexToTypedArray, h48, hv, hmod]
  | c1 :: c2 :: rest, h1, h2 => by
    refine ⟨?_, by decide⟩
    have hr1 : rest.length % 2 = 1 := by
      simp only [List.length_cons] at h1; omega
    obtain ⟨bs, v, hok, hlen, hlast_hex, hvlt, hlast_bs⟩ :=
      (hexToTypedArray_odd_lenient rest hr1 (fun c hc => h2 c (by simp [hc]))).1
    obtain ⟨a, ha⟩ := Option.isSome_iff_exists.mp (h2 c1 (by simp))
    obtain ⟨b, hb⟩ := Option.isSome_iff_exists.mp (h2 c2 (by simp))
    have hne : rest ≠ [] := by
      intro h0; rw [h0] at hr1; simp at hr1
    have hbsne : bs ≠ [] := by
      intro hb0
      rw [hb0] at hlast_bs
      simp at hlast_bs
    refine ⟨(a * 16 + b) % 256 :: bs, v, ?_, ?_, ?_, hvlt, ?_⟩
    · simp only [hexToTypedArray, ha, hb, hok]
      rfl
    · simp only [List.length_cons, hlen]
      omega
    · rw [List.getLastD_cons, List.getLastD_cons, getLastD_irrel rest hne c2 0]
      exact hlast_hex
    · cases bs with
      | nil => exact absurd rfl hbsne
      | cons y ys =>
        rw [List.getLast?_cons_cons]
        exact hlast_bs

/-- Witness for C2 at the one-character string "d". -/
theorem hexToTypedArray_odd_lenient_witness :
    ((∃ bs v, hexToTypedArray [100] = .ok bs ∧
      bs.length = ([100] : List Nat).length.succ / 2 ∧
      hexVal (([100] : List Nat).getLastD 0) = some v ∧ v < 16 ∧
      bs.getLast? = some v) ∧
    hexToTypedArray [100] = .ok [13]) :=
  hexToTypedArray_odd_lenient [100] (by decide) (by decide)

/-! ## C3: the short trailing bit group -/

/-- Bit characters are not JavaScript whitespace. -/
theorem jsWhitespace_bit (c : Nat) (h : c = 48 ∨ c = 49) : jsWhitespace c = false := by
  rcases h with h | h <;> subst h <;> decide

/-- On a pure bit string the binary-literal parser is the fold value. -/
theorem parseBinDigits_eq :
    ∀ (g : List Nat) (acc : Nat), (∀ c ∈ g, c = 48 ∨ c = 49) →
      parseBinDigits acc g = some (g.foldl (fun a c => 2 * a + (c - 48)) acc)
  | [], _, _ => rfl
  | c :: rest, acc, h => by
    have hrest : ∀ x ∈ rest, x = 48 ∨ x = 49 := fun x hx => h x (by simp [hx])
    rcases h c (by simp) with hc | hc <;> subst hc
    · simp only [parseBinDigits, if_pos rfl, List.foldl_cons]
      rw [parseBinDigits_eq rest (2 * acc) hrest]
      norm_num
    · simp only [parseBinDigits, List.foldl_cons]
      norm_num
      rw [parseBinDigits_eq rest (2 * acc + 1) hrest]

/-- Value bound for the bit fold. -/
theorem foldlBin_lt :
    ∀ (g : List Nat) (acc : Nat), (∀ c ∈ g, c = 48 ∨ c = 49) →
      g.foldl (fun a c => 2 * a + (c - 48)) acc < (acc + 1) * 2 ^ g.length
  | [], acc, _ => by simp
  | c :: rest, acc, h => by
    have hrest : ∀ x ∈ rest, x = 48 ∨ x = 49 := fun x hx => h x (by simp [hx])
    have hd : c - 48 ≤ 1 := by rcases h c (by simp) with hc | hc <;> omega
    have ih := foldlBin_lt rest (2 * acc + (c - 48)) hrest
    simp only [List.foldl_cons, List.length_cons]
    refine lt_of_lt_of_le ih ?_
    have h2 : 2 * acc + (c - 48) + 1 ≤ 2 * (acc + 1) := by omega
    calc (2 * acc + (c - 48) + 1) * 2 ^ rest.length
        ≤ 2 * (acc + 1) * 2 ^ rest.length := Nat.mul_le_mul_right _ h2
      _ = (acc + 1) * 2 ^ (rest.length + 1) := by rw [pow_succ]; ring

/-- A bit string of length `n` has value below `2 ^ n`. -/
theorem binValue_lt (g : List Nat) (h : ∀ c ∈ g, c = 48 ∨ c = 49) :
    binValue g < 2 ^ g.length := by
  have := foldlBin_lt g 0 h
  simpa [binValue] using this

/-- On a non-empty pure bit string, `Number("0b" + group)` is its value. -/
theorem parseBinGroup_eq (g : List Nat) (hne : g ≠ []) (h : ∀ c ∈ g, c = 48 ∨ c = 49) :
    parseBinGroup g = some (binValue g) := by
  have htrim : g.reverse.dropWhile (fun c => jsWhitespace c) = g.reverse := by
    apply dropWhile_eq_self_of
    intro x hx
    exact jsWhitespace_bit x (h x (List.mem_reverse.mp hx))
  cases g with
  | nil => exact absurd rfl hne
  | cons c rest =>
    simp only [parseBinGroup, htrim, List.reverse_reverse]
    exact parseBinDigits_eq (c :: rest) 0 h

/-- On a short (one to seven characters) input the whole input is the single
group. -/
theorem binaryString_shortShape :
    ∀ (l : List Nat), l ≠ [] → l.length < 8 →
      binaryStringToTypedArray l =
        (match parseBinGroup l with
         | none => .error (.invalidInput "Binary string must only contain 0 or 1")
         | some base10 => .ok [base10 % 256]) := by
  intro l h0 h8
  rcases l with _ | ⟨c1, _ | ⟨c2, _ | ⟨c3, _ | ⟨c4, _ | ⟨c5, _ | ⟨c6, _ | ⟨c7, _ | ⟨c8, rest⟩⟩⟩⟩⟩⟩⟩⟩
  · exact absurd rfl h0
  · rfl
  · rfl
  · rfl
  · rfl
  · rfl
  · rfl
  · rfl
  · simp only [List.length_cons] at h8; omega

/-- Decoding a short pure bit string gives its single value byte. -/
theorem binaryString_short (s : List Nat) (h0 : s ≠ []) (h8 : s.length < 8)
    (hb : ∀ c ∈ s, c = 48 ∨ c = 49) :
    binaryStringToTypedArray s = .ok [binValue s] := by
  have h1 := binValue_lt s hb
  have h2 : (2 : Nat) ^ s.length ≤ 2 ^ 8 := Nat.pow_le_pow_right (by norm_num) (by omega)
  have h3 : (2 : Nat) ^ 8 = 256 := by norm_num
  have hmod : binValue s % 256 = binValue s := Nat.mod_eq_of_lt (by omega)
  rw [binaryString_shortShape s h0 h8]
  simp only [parseBinGroup_eq s h0 hb, hmod]

/-- Unfolding one full eight-character group. -/
theorem binaryString_chunk (c1 c2 c3 c4 c5 c6 c7 c8 : Nat) (rest : List Nat)
    (hb : ∀ c ∈ [c1, c2, c3, c4, c5, c6, c7, c8], c = 48 ∨ c = 49) :
    binaryStringToTypedArray (c1 :: c2 :: c3 :: c4 :: c5 :: c6 :: c7 :: c8 :: rest) =
      (fun tail => binValue [c1, c2, c3, c4, c5, c6, c7, c8] % 256 :: tail) <$>
        binaryStringToTypedArray rest := by
  have h := parseBinGroup_eq [c1, c2, c3, c4, c5, c6, c7, c8] (by simp) hb
  show (match parseBinGroup [c1, c2, c3, c4, c5, c6, c7, c8] with
    | none => Except.error (CodecError.invalidInput "Binary string must only contain 0 or 1")
    | some base10 =>
      (fun tail => base10 % 256 :: tail) <$>
        binaryStringToTypedArray rest) = _
  simp only [h]

/-- Dropping eight leading elements plus `n` more. -/
theorem drop_cons_eight (c1 c2 c3 c4 c5 c6 c7 c8 : Nat) (rest : List Nat) (n : Nat) :
    (c1 :: c2 :: c3 :: c4 :: c5 :: c6 :: c7 :: c8 :: rest).drop (n + 8) = rest.drop n :=
  rfl

/-- Leading zero characters do not change the value of a bit string. -/
theorem binValue_replicate :
    ∀ (k : Nat) (g : List Nat), binValue (List.replicate k 48 ++ g) = binValue g := by
  have hz : ∀ k : Nat, (List.replicate k 48).foldl (fun a c => 2 * a + (c - 48)) 0 = 0 := by
    intro k
    induction k with
    | zero => rfl
    | succ k ih => simpa [List.replicate_succ, List.foldl_cons] using ih
  intro k g
  show (List.replicate k 48 ++ g).foldl (fun a c => 2 * a + (c - 48)) 0 = _
  rw [List.foldl_append, hz k]
  rfl

/-- A successful short decode meets the full characterization. -/
theorem binaryString_ok_short (l : List Nat) (hne : l ≠ []) (h8 : l.length < 8)
    (hb : ∀ c ∈ l, c = 48 ∨ c = 49) :
    ∃ bs, binaryStringToTypedArray l = .ok bs ∧
      bs.length = (l.length + 7) / 8 ∧
      bs.getLast? = some (binValue (l.drop (8 * ((l.length - 1) / 8)))) := by
  have h1 : 1 ≤ l.length := by
    cases l with
    | nil => exact absurd rfl hne
    | cons _ _ => simp
  refine ⟨[binValue l], binaryString_short l hne h8 hb, ?_, ?_⟩
  · simp only [List.length_singleton]
    omega
  · have h0 : 8 * ((l.length - 1) / 8) = 0 := by omega
    rw [h0, List.drop_zero]
    rfl

/-- Full characterization of a successful bit-string decode: one byte per
eight-character group, the (possibly short) final group parsed as its own
binary value. -/
theorem binaryString_ok :
    ∀ (s : List Nat), (∀ c ∈ s, c = 48 ∨ c = 49) → s ≠ [] →
      ∃ bs, binaryStringToTypedArray s = .ok bs ∧
        bs.length = (s.length + 7) / 8 ∧
        bs.getLast? = some (binValue (s.drop (8 * ((s.length - 1) / 8))))
  | [], _, hne => absurd rfl hne
  | [c1], hb, _ => binaryString_ok_short [c1] (by simp) (by simp) hb
  | [c1, c2], hb, _ => binaryString_ok_short [c1, c2] (by simp) (by simp) hb
  | [c1, c2, c3], hb, _ => binaryString_ok_short [c1, c2, c3] (by simp) (by simp) hb
  | [c1, c2, c3, c4], hb, _ => binaryString_ok_short [c1, c2, c3, c4] (by simp) (by simp) hb
  | [c1, c2, c3, c4, c5], hb, _ =>
    binaryString_ok_short [c1, c2, c3, c4, c5] (by simp) (by simp) hb
  | [c1, c2, c3, c4, c5, c6], hb, _ =>
    binaryString_ok_short [c1, c2, c3, c4, c5, c6] (by simp) (by simp) hb
  | [c1, c2, c3, c4, c5, c6, c7], hb, _ =>
    binaryString_ok_short [c1, c2, c3, c4, c5, c6, c7] (by simp) (by simp) hb
  | c1 :: c2 :: c3 :: c4 :: c5 :: c6 :: c7 :: c8 :: rest, hb, _ => by
    have hb8 : ∀ c ∈ [c1, c2, c3, c4, c5, c6, c7, c8], c = 48 ∨ c = 49 := by
      intro c hc
      apply hb c
      simp only [List.mem_cons] at hc ⊢
      tauto
    have hlt : binValue [c1, c2, c3, c4, c5, c6, c7, c8] < 256 := by
      have := binValue_lt [c1, c2, c3, c4, c5, c6, c7, c8] hb8
      norm_num at this
      omega
    have hmod : binValue [c1, c2, c3, c4, c5, c6, c7, c8] % 256 =
        binValue [c1, c2, c3, c4, c5, c6, c7, c8] := Nat.mod_eq_of_lt hlt
    rw [binaryString_chunk c1 c2 c3 c4 c5 c6 c7 c8 rest hb8]
    by_cases hrest : rest = []
    · subst hrest
      refine ⟨[binValue [c1, c2, c3, c4, c5, c6, c7, c8] % 256], rfl, by simp, ?_⟩
      simp only [List.length_cons, List.length_nil]
      norm_num
      exact hlt
    · obtain ⟨bs, hok, hlen, hlast⟩ :=
        binaryString_ok rest (fun c hc => hb c (by simp [hc])) hrest
      have hbsne : bs ≠ [] := by
        intro h0
        rw [h0] at hlast
        simp at hlast
      have hrlen : 1 ≤ rest.length := by
        cases rest with
        | nil => exact absurd rfl hrest
        | cons _ _ => simp
      refine ⟨binValue [c1, c2, c3, c4, c5, c6, c7, c8] % 256 :: bs, ?_, ?_, ?_⟩
      · rw [hok]
        rfl
      · simp only [List.length_cons, hlen]
        try omega
      · have hdrop :
            (c1 :: c2 :: c3 :: c4 :: c5 :: c6 :: c7 :: c8 :: rest).drop
              (8 * (((c1 :: c2 :: c3 :: c4 :: c5 :: c6 :: c7 :: c8 :: rest).length - 1) / 8)) =
            rest.drop (8 * ((rest.length - 1) / 8)) := by
          have hL : (c1 :: c2 :: c3 :: c4 :: c5 :: c6 :: c7 :: c8 :: rest).length =
              rest.length + 8 := by
            simp only [List.length_cons]
            try omega
          have harith : 8 * (((rest.length + 8) - 1) / 8) =
              8 * ((rest.length - 1) / 8) + 8 := by
            have e1 : (rest.length + 8) - 1 = (rest.length - 1) + 8 := by omega
            rw [e1, Nat.add_div_right _ (by norm_num)]
            ring
          rw [hL, harith, drop_cons_eight]
        rw [hdrop]
        cases bs with
        | nil => exact absurd rfl hbsne
        | cons y ys =>
          rw [List.getLast?_cons_cons]
          exact hlast

/-- C3 counterexample: on the bit string "101" the decoder yields the byte 5
(the value of the binary literal "101", i.e. as if left-padded to
"00000101"), not the byte 160 that right-padding to "10100000" would give. -/
theorem binaryString_right_pad_cex :
    binaryStringToTypedArray [49, 48, 49] = .ok [5] ∧
    binaryStringToTypedArray [49, 48, 49] ≠ .ok [160] := by decide

/-- C3 (amended): on a '0'/'1' string whose length is not a multiple of 8,
the short trailing group is parsed as an unsigned binary literal of its own
length — equivalent to zero-padding it on the *left* to 8 bits — into the
last output byte; e.g. the trailing group "101" decodes as if it were
"00000101", i.e. to 5. -/
theorem binaryString_last_group_left_padded (s : List Nat)
    (hb : ∀ c ∈ s, c = 48 ∨ c = 49) (hlen : s.length % 8 ≠ 0) :
    (∃ bs, binaryStringToTypedArray s = .ok bs ∧
      bs.length = (s.length + 7) / 8 ∧
      bs.getLast? = some (binValue
        (List.replicate (8 - s.length % 8) 48 ++ s.drop (8 * (s.length / 8))))) ∧
    binaryStringToTypedArray [49, 48, 49] = .ok [5] := by
  refine ⟨?_, by decide⟩
  have hne : s ≠ [] := by
    intro h0
    subst h0
    simp at hlen
  obtain ⟨bs, hok, hl, hlast⟩ := binaryString_ok s hb hne
  refine ⟨bs, hok, hl, ?_⟩
  rw [hlast, binValue_replicate]
  have h1 : (s.length - 1) / 8 = s.length / 8 := by omega
  rw [h1]

/-- Witness for C3's amended claim at the bit string "101". -/
theorem binaryString_last_group_left_padded_witness :
    ((∃ bs, binaryStringToTypedArray [49, 48, 49] = .ok bs ∧
      bs.length = (([49, 48, 49] : List Nat).length + 7) / 8 ∧
      bs.getLast? = some (binValue
        (List.replicate (8 - ([49, 48, 49] : List Nat).length % 8) 48 ++
          ([49, 48, 49] : List Nat).drop
            (8 * (([49, 48, 49] : List Nat).length / 8))))) ∧
    binaryStringToTypedArray [49, 48, 49] = .ok [5]) :=
  binaryString_last_group_left_padded [49, 48, 49] (by decide) (by decide)

/-! ## C4: the windows-1252 encode direction -/

/-- The WHATWG windows-1252 index is total on its 128 pointers. -/
theorem windows1252Index_isSome (p : Nat) (h : p < 128) :
    (windows1252Index p).isSome := by
  have hall : ∀ q < 128, (windows1252Index q).isSome := by decide
  exact hall p h

/-- C4 counterexample: the byte 0x81 — one of the five bytes the claim says
must raise — encodes without error, to the C1 control U+0081. -/
theorem windows1252_encode_0x81 :
    typedArrayToWindows1252 ⟨.uint8, [129]⟩ = .ok [129] := by decide

/-- C4 (amended): `typedArrayToWindows1252` never fails on a byte buffer:
the WHATWG windows-1252 decoder is total, and in particular the five bytes
0x81, 0x8D, 0x8F, 0x90, 0x9D (which have no graphic character) decode to the
C1 control characters of the same value rather than raising. -/
theorem windows1252_encode_total (t : TypedArray) (h : ValidBytes t.buf) :
    (∃ s, typedArrayToWindows1252 t = .ok s ∧ s.length = t.buf.length) ∧
    typedArrayToWindows1252 ⟨.uint8, [129, 141, 143, 144, 157]⟩ =
      .ok [129, 141, 143, 144, 157] := by
  refine ⟨?_, by decide⟩
  refine ⟨t.buf.map (fun b => if b < 128 then b else (windows1252Index (b - 128)).getD 0),
    ?_, by simp⟩
  unfold typedArrayToWindows1252
  rw [buf_typedArrayToUint8Array]
  apply mapM_ok_of_forall
  intro b hb
  by_cases hlt : b < 128
  · simp [hlt]
  · have hp : b - 128 < 128 := by
      have := h b hb
      omega
    obtain ⟨cp, hcp⟩ := Option.isSome_iff_exists.mp (windows1252Index_isSome (b - 128) hp)
    simp [hlt, hcp]

/-! ## C5 and C6: the URL-safe Base64 codec -/

/-- Alphabet facts: decoding inverts the alphabet, and no alphabet character
is `'='` or whitespace. -/
theorem sixToChar_props : ∀ n < 64,
    charToSix (sixToChar n) = some n ∧ sixToChar n ≠ 61 ∧
    jsWhitespace (sixToChar n) = false ∧ asciiWhitespace (sixToChar n) = false := by
  decide

/-- Substitution facts: the decoder's `'-'`/`'_'` substitutions invert the
encoder's on alphabet characters, and the encoder's substitution never
produces `'+'`, `'/'` or `'='` from an alphabet character. -/
theorem sixToChar_swap : ∀ n < 64,
    (fun c => if c = 95 then 47 else c)
      ((fun c => if c = 45 then 43 else c) (swapEnc (sixToChar n))) = sixToChar n ∧
    swapEnc (sixToChar n) ≠ 43 ∧ swapEnc (sixToChar n) ≠ 47 ∧
    swapEnc (sixToChar n) ≠ 61 := by
  decide

/-- `stripPad` is the identity on text without `'='`. -/
theorem stripPad_id (t : List Nat) (h : ∀ x ∈ t, x ≠ 61) : stripPad t = t := by
  unfold stripPad
  split
  · next r heq =>
    exfalso
    have h61 : (61 : Nat) ∈ t.reverse := by rw [heq]; simp
    exact h 61 (List.mem_reverse.mp h61) rfl
  · next r heq =>
    exfalso
    have h61 : (61 : Nat) ∈ t.reverse := by rw [heq]; simp
    exact h 61 (List.mem_reverse.mp h61) rfl
  · rfl

/-- The three key properties of the `'='`-stripped Base64 encoding of a byte
buffer: forgiving decode restores the buffer, the length is never `1 mod 4`,
and every character is an alphabet character. -/
theorem encoded_spec : ∀ (b : List Nat), ValidBytes b →
    atobDecode ((btoaAux b).filter (fun c => c ≠ 61)) = some b ∧
    ((btoaAux b).filter (fun c => c ≠ 61)).length % 4 ≠ 1 ∧
    ∀ x ∈ (btoaAux b).filter (fun c => c ≠ 61), ∃ n, n < 64 ∧ x = sixToChar n
  | [], _ => ⟨rfl, by simp [btoaAux], by simp [btoaAux]⟩
  | [b0], hb => by
    have h0 : b0 < 256 := hb b0 (by simp)
    have n1 : b0 / 4 < 64 := by omega
    have n2 : (b0 % 4) * 16 < 64 := by omega
    obtain ⟨A1, B1, -, -⟩ := sixToChar_props _ n1
    obtain ⟨A2, B2, -, -⟩ := sixToChar_props _ n2
    have hfil : (btoaAux [b0]).filter (fun c => c ≠ 61) =
        [sixToChar (b0 / 4), sixToChar ((b0 % 4) * 16)] := by
      simp [btoaAux, List.filter_cons, B1, B2]
    rw [hfil]
    refine ⟨?_, by simp, ?_⟩
    · simp only [atobDecode, A1, A2]
      have e1 : b0 / 4 * 4 + (b0 % 4) * 16 / 16 = b0 := by omega
      rw [e1]
    · intro x hx
      simp only [List.mem_cons, List.not_mem_nil, or_false] at hx
      rcases hx with rfl | rfl
      · exact ⟨_, n1, rfl⟩
      · exact ⟨_, n2, rfl⟩
  | [b0, b1], hb => by
    have h0 : b0 < 256 := hb b0 (by simp)
    have h1 : b1 < 256 := hb b1 (by simp)
    have n1 : b0 / 4 < 64 := by omega
    have n2 : (b0 % 4) * 16 + b1 / 16 < 64 := by omega
    have n3 : (b1 % 16) * 4 < 64 := by omega
    obtain ⟨A1, B1, -, -⟩ := sixToChar_props _ n1
    obtain ⟨A2, B2, -, -⟩ := sixToChar_props _ n2
    obtain ⟨A3, B3, -, -⟩ := sixToChar_props _ n3
    have hfil : (btoaAux [b0, b1]).filter (fun c => c ≠ 61) =
        [sixToChar (b0 / 4), sixToChar ((b0 % 4) * 16 + b1 / 16),
         sixToChar ((b1 % 16) * 4)] := by
      simp [btoaAux, List.filter_cons, B1, B2, B3]
    rw [hfil]
    refine ⟨?_, by simp, ?_⟩
    · simp only [atobDecode, A1, A2, A3]
      have e1 : b0 / 4 * 4 + ((b0 % 4) * 16 + b1 / 16) / 16 = b0 := by omega
      have e2 : ((b0 % 4) * 16 + b1 / 16) % 16 * 16 + (b1 % 16) * 4 / 4 = b1 := by omega
      rw [e1, e2]
    · intro x hx
      simp only [List.mem_cons, List.not_mem_nil, or_false] at hx
      rcases hx with rfl | rfl | rfl
      · exact ⟨_, n1, rfl⟩
      · exact ⟨_, n2, rfl⟩
      · exact ⟨_, n3, rfl⟩
  | b0 :: b1 :: b2 :: rest, hb => by
    have h0 : b0 < 256 := hb b0 (by simp)
    have h1 : b1 < 256 := hb b1 (by simp)
    have h2 : b2 < 256 := hb b2 (by simp)
    have n1 : b0 / 4 < 64 := by omega
    have n2 : (b0 % 4) * 16 + b1 / 16 < 64 := by omega
    have n3 : (b1 % 16) * 4 + b2 / 64 < 64 := by omega
    have n4 : b2 % 64 < 64 := by omega
    obtain ⟨A1, B1, -, -⟩ := sixToChar_props _ n1
    obtain ⟨A2, B2, -, -⟩ := sixToChar_props _ n2
    obtain ⟨A3, B3, -, -⟩ := sixToChar_props _ n3
    obtain ⟨A4, B4, -, -⟩ := sixToChar_props _ n4
    obtain ⟨ihdec, ihmod, ihmem⟩ :=
      encoded_spec rest (fun x hx => hb x (by simp [hx]))
    have hfil : (btoaAux (b0 :: b1 :: b2 :: rest)).filter (fun c => c ≠ 61) =
        sixToChar (b0 / 4) :: sixToChar ((b0 % 4) * 16 + b1 / 16) ::
        sixToChar ((b1 % 16) * 4 + b2 / 64) :: sixToChar (b2 % 64) ::
        (btoaAux rest).filter (fun c => c ≠ 61) := by
      simp [btoaAux, List.filter_cons, B1, B2, B3, B4]
    rw [hfil]
    refine ⟨?_, ?_, ?_⟩
    · simp only [atobDecode, A1, A2, A3, A4, ihdec]
      have e1 : b0 / 4 * 4 + ((b0 % 4) * 16 + b1 / 16) / 16 = b0 := by omega
      have e2 : ((b0 % 4) * 16 + b1 / 16) % 16 * 16 +
          ((b1 % 16) * 4 + b2 / 64) / 4 = b1 := by omega
      have e3 : ((b1 % 16) * 4 + b2 / 64) % 4 * 64 + b2 % 64 = b2 := by omega
      rw [e1, e2, e3]
    · simp only [List.length_cons]
      omega
    · intro x hx
      simp only [List.mem_cons] at hx
      rcases hx with rfl | rfl | rfl | rfl | hx
      · exact ⟨_, n1, rfl⟩
      · exact ⟨_, n2, rfl⟩
      · exact ⟨_, n3, rfl⟩
      · exact ⟨_, n4, rfl⟩
      · exact ihmem x hx

/-- The URL-safe encoder on a valid byte buffer: Base64, `'='` stripped,
`'+'`/`'/'` substituted. -/
theorem base64url_encode_eq (b : List Nat) (hb : ValidBytes b) :
    typedArrayToBase64Url ⟨.uint8, b⟩ =
      .ok (((btoaAux b).filter (fun c => c ≠ 61)).map swapEnc) := by
  show typedArrayToAsciiUrl ⟨.uint8, b⟩ = _
  unfold typedArrayToAsciiUrl typedArrayToAscii
  have hbin : typedArrayToBinary ⟨.uint8, b⟩ = b := by
    show b.map (fun x => x % 65536) = b
    exact map_eq_self_of _ b (fun a ha => Nat.mod_eq_of_lt (by have := hb a ha; omega))
  rw [hbin]
  have hall : b.all (fun c => c ≤ 255) = true := by
    rw [List.all_eq_true]
    intro a ha
    have := hb a ha
    simp
    omega
  unfold btoa
  rw [if_pos hall]
  rfl

/-- C5: URL-safe Base64 round-trips: decoding the URL-safe encoding of any
byte buffer restores the buffer exactly, even though the encoder strips all
`'='` padding before the decoder re-reads the text. -/
theorem base64url_roundtrip (b : List Nat) (hb : ValidBytes b) :
    ∃ s, typedArrayToBase64Url ⟨.uint8, b⟩ = .ok s ∧
      base64UrlToTypedArray s = .ok b := by
  obtain ⟨hdec, hmod4, hmem⟩ := encoded_spec b hb
  refine ⟨((btoaAux b).filter (fun c => c ≠ 61)).map swapEnc,
    base64url_encode_eq b hb, ?_⟩
  show asciiUrlToTypedArray _ = _
  unfold asciiUrlToTypedArray asciiToTypedArray
  rw [List.map_map, List.map_map]
  have hfix : ((btoaAux b).filter (fun c => c ≠ 61)).map
      (((fun c => if c = 95 then 47 else c) ∘ fun c => if c = 45 then 43 else c) ∘ swapEnc) =
      (btoaAux b).filter (fun c => c ≠ 61) := by
    apply map_eq_self_of
    intro x hx
    obtain ⟨n, hn, rfl⟩ := hmem x hx
    exact (sixToChar_swap n hn).1
  rw [hfix]
  have hws : ((btoaAux b).filter (fun c => c ≠ 61)).filter
      (fun c => !(jsWhitespace c)) = (btoaAux b).filter (fun c => c ≠ 61) := by
    rw [List.filter_eq_self]
    intro a ha
    obtain ⟨n, hn, rfl⟩ := hmem a ha
    simp [(sixToChar_props n hn).2.2.1]
  rw [hws]
  unfold atob
  have hws2 : ((btoaAux b).filter (fun c => c ≠ 61)).filter
      (fun c => !(asciiWhitespace c)) = (btoaAux b).filter (fun c => c ≠ 61) := by
    rw [List.filter_eq_self]
    intro a ha
    obtain ⟨n, hn, rfl⟩ := hmem a ha
    simp [(sixToChar_props n hn).2.2.2]
  have hstrip : stripPad ((btoaAux b).filter (fun c => c ≠ 61)) =
      (btoaAux b).filter (fun c => c ≠ 61) := by
    apply stripPad_id
    intro x hx
    obtain ⟨n, hn, rfl⟩ := hmem x hx
    exact (sixToChar_props n hn).2.1
  simp only [hws2, hstrip, ite_self]
  rw [if_neg hmod4, hdec]

/-- Witness for C5 at the byte buffer `[0xff, 0xff, 0xfe]`. -/
theorem base64url_roundtrip_witness :
    ∃ s, typedArrayToBase64Url ⟨.uint8, [255, 255, 254]⟩ = .ok s ∧
      base64UrlToTypedArray s = .ok [255, 255, 254] :=
  base64url_roundtrip [255, 255, 254] (by decide)

/-- C6: the URL-safe Base64 encoding of any byte buffer contains no `'+'`,
no `'/'` and no `'='` character. -/
theorem base64url_no_special_chars (b : List Nat) (hb : ValidBytes b) :
    ∃ s, typedArrayToBase64Url ⟨.uint8, b⟩ = .ok s ∧
      ∀ c ∈ s, c ≠ 43 ∧ c ≠ 47 ∧ c ≠ 61 := by
  obtain ⟨-, -, hmem⟩ := encoded_spec b hb
  refine ⟨((btoaAux b).filter (fun c => c ≠ 61)).map swapEnc,
    base64url_encode_eq b hb, ?_⟩
  intro c hc
  obtain ⟨x, hx, rfl⟩ := List.mem_map.mp hc
  obtain ⟨n, hn, rfl⟩ := hmem x hx
  obtain ⟨-, F1, F2, F3⟩ := sixToChar_swap n hn
  exact ⟨F1, F2, F3⟩

/-- Witness for C6 at the byte buffer `[0xff, 0xff, 0xfe]` (whose standard
Base64 text is `"///+"`). -/
theorem base64url_no_special_chars_witness :
    ∃ s, typedArrayToBase64Url ⟨.uint8, [255, 255, 254]⟩ = .ok s ∧
      ∀ c ∈ s, c ≠ 43 ∧ c ≠ 47 ∧ c ≠ 61 :=
  base64url_no_special_chars [255, 255, 254] (by decide)

/-- Witness for C4's amended claim at a concrete byte buffer. -/
theorem windows1252_encode_total_witness :
    ((∃ s, typedArrayToWindows1252 ⟨.uint8, [0x80, 0x81, 0x41]⟩ = .ok s ∧
      s.length = (TypedArray.mk .uint8 [0x80, 0x81, 0x41]).buf.length) ∧
    typedArrayToWindows1252 ⟨.uint8, [129, 141, 143, 144, 157]⟩ =
      .ok [129, 141, 143, 144, 157]) :=
  windows1252_encode_total ⟨.uint8, [0x80, 0x81, 0x41]⟩ (by decide)
